import Mathlib

/-!
Verification of the crossbackup backup tool (Python) against its
natural-language specification.  The Python modules `sync.py`,
`archive.py`, `snapshot.py`, `common.py` and the configuration types in
`data_type.py` / `config.py` are shallowly embedded below: Python
strings become `List Char`, `datetime.datetime` becomes the record
`PyDateTime`, subprocess side effects become explicit state passing, and
fallible constructors return `Except`.
-/

namespace Crossbackup

/-- Python `str`, modelled as the list of its characters. -/
abbrev PyStr := List Char

/-! ## Date-time model

Python `datetime.datetime`: calendar fields plus an optional fixed UTC
offset in seconds (`none` models a naive datetime, `some off` models
`tzinfo = timezone(timedelta(seconds=off))`). -/

structure PyDateTime where
  year : Int
  month : Nat
  day : Nat
  hour : Nat
  minute : Nat
  second : Nat
  microsecond : Nat
  /-- UTC offset in seconds; `none` = naive datetime. -/
  tzoff : Option Int
  deriving Repr, DecidableEq

/-- Day count since 1970-01-01 of a civil date (proleptic Gregorian),
the standard days-from-civil algorithm (here with floor division, which
`Int./` provides for positive divisors); models Python's date
arithmetic (`datetime.toordinal` shifted to the Unix epoch). -/
def daysFromCivil (y : Int) (m : Nat) (d : Nat) : Int :=
  let y' : Int := if m ≤ 2 then y - 1 else y
  let era : Int := y' / 400
  let yoe : Int := y' - era * 400
  let mp : Int := if 2 < m then (m : Int) - 3 else (m : Int) + 9
  let doy : Int := (153 * mp + 2) / 5 + (d : Int) - 1
  let doe : Int := yoe * 365 + yoe / 4 - yoe / 100 + doy
  era * 146097 + doe - 719468

/-- Inverse of `daysFromCivil` (civil-from-days), used to model
Python's `datetime - timedelta(days=k)` and `astimezone`. -/
def civilFromDays (z0 : Int) : Int × Nat × Nat :=
  let z : Int := z0 + 719468
  let era : Int := z / 146097
  let doe : Int := z - era * 146097
  let yoe : Int := (doe - doe / 1460 + doe / 36524 - doe / 146096) / 365
  let y : Int := yoe + era * 400
  let doy : Int := doe - (365 * yoe + yoe / 4 - yoe / 100)
  let mp : Int := (5 * doy + 2) / 153
  let d : Int := doy - (153 * mp + 2) / 5 + 1
  let m : Int := if mp < 10 then mp + 3 else mp - 9
  (if m ≤ 2 then y + 1 else y, m.toNat, d.toNat)

namespace PyDateTime

/-- Seconds since the Unix epoch of the wall-clock fields, ignoring the
timezone offset (i.e. reading the fields as UTC). -/
def wallEpochSec (t : PyDateTime) : Int :=
  daysFromCivil t.year t.month t.day * 86400
    + t.hour * 3600 + t.minute * 60 + t.second

/-- Microseconds since the Unix epoch of the instant denoted by an
aware datetime (offset subtracted); for a naive datetime the fields are
read as UTC.  Python's comparison of two aware datetimes compares these
instants. -/
def epochMicro (t : PyDateTime) : Int :=
  (t.wallEpochSec - t.tzoff.getD 0) * 1000000 + t.microsecond

/-- Wall-clock field tuple, used for naive/naive comparison
(Python compares naive datetimes field by field). -/
def fields (t : PyDateTime) : Int × Nat × Nat × Nat × Nat × Nat × Nat :=
  (t.year, t.month, t.day, t.hour, t.minute, t.second, t.microsecond)

/-- Python `==` on datetimes: aware/aware compares instants,
naive/naive compares wall fields, mixed compares unequal. -/
def eqb (t1 t2 : PyDateTime) : Bool :=
  match t1.tzoff, t2.tzoff with
  | some _, some _ => t1.epochMicro == t2.epochMicro
  | none, none => t1.fields == t2.fields
  | _, _ => false

/-- Python `<` on datetimes: aware/aware compares instants, naive/naive
compares wall fields lexicographically.  (Python raises `TypeError` on
a mixed comparison; the engine only ever compares aware datetimes, and
the mixed case is modelled as `false`.) -/
def ltb (t1 t2 : PyDateTime) : Bool :=
  match t1.tzoff, t2.tzoff with
  | some _, some _ => t1.epochMicro < t2.epochMicro
  | none, none =>
      decide (Prod.Lex (· < ·) (Prod.Lex (· < ·) (Prod.Lex (· < ·)
        (Prod.Lex (· < ·) (Prod.Lex (· < ·) (Prod.Lex (· < ·) (· < ·))))))
        t1.fields t2.fields)
  | _, _ => false

/-- `datetime.resolution` is a *class* attribute: the smallest
representable timedelta, one microsecond (in microseconds). -/
def resolutionMicro : Int := 1

end PyDateTime

/-- Two-digit zero-padded decimal rendering (fields are `< 100`). -/
def pad2 (n : Nat) : PyStr := [Nat.digitChar (n / 10 % 10), Nat.digitChar (n % 10)]

/-- Four-digit zero-padded decimal rendering (years are `< 10000`). -/
def pad4 (n : Nat) : PyStr :=
  [Nat.digitChar (n / 1000 % 10), Nat.digitChar (n / 100 % 10),
   Nat.digitChar (n / 10 % 10), Nat.digitChar (n % 10)]

/-- Six-digit zero-padded decimal rendering (microseconds). -/
def pad6 (n : Nat) : PyStr :=
  [Nat.digitChar (n / 100000 % 10), Nat.digitChar (n / 10000 % 10),
   Nat.digitChar (n / 1000 % 10), Nat.digitChar (n / 100 % 10),
   Nat.digitChar (n / 10 % 10), Nat.digitChar (n % 10)]

namespace PyDateTime

/-- `t.astimezone(timezone.utc)` on an aware datetime: re-express the
instant in UTC calendar fields (offset `+00:00`).  (The engine never
calls this on a naive datetime; a naive input is read as UTC.) -/
def astimezoneUTC (t : PyDateTime) : PyDateTime :=
  let sec : Int := t.wallEpochSec - t.tzoff.getD 0
  let days : Int := sec / 86400
  let rem : Nat := (sec % 86400).toNat
  let c := civilFromDays days
  ⟨c.1, c.2.1, c.2.2, rem / 3600, rem % 3600 / 60, rem % 60,
   t.microsecond, some 0⟩

/-- Python's `+HH:MM` rendering of a UTC offset (`isoformat`); the
engine only formats offset `+00:00`. -/
def isoOffset (off : Int) : PyStr :=
  (if off < 0 then ['-'] else ['+']) ++ pad2 (off.natAbs / 3600)
    ++ ':' :: pad2 (off.natAbs % 3600 / 60)

/-- `datetime.isoformat()`: `YYYY-MM-DDTHH:MM:SS[.ffffff]±HH:MM`
(the fractional part is omitted when the microsecond field is zero). -/
def isoformat (t : PyDateTime) : PyStr :=
  pad4 t.year.toNat ++ '-' :: pad2 t.month ++ '-' :: pad2 t.day
    ++ 'T' :: pad2 t.hour ++ ':' :: pad2 t.minute ++ ':' :: pad2 t.second
    ++ (if t.microsecond = 0 then [] else '.' :: pad6 t.microsecond)
    ++ (match t.tzoff with | none => [] | some off => isoOffset off)

end PyDateTime

/-! ## Backup records (`sync.py`, class `Backup`) -/

structure Backup where
  name : PyStr
  path : PyStr
  time : PyDateTime
  is_dir : Bool
  deriving Repr, DecidableEq

namespace Backup

/-- `Backup.__init__`: rejects naive timestamps; the intended
sub-second-resolution rejection compares the class constant
`datetime.resolution` (1 µs) against `timedelta(seconds=1)`. -/
def mk? (name : PyStr) (path : PyStr) (time : PyDateTime) (is_dir : Bool) :
    Except String Backup :=
  if time.tzoff = none then
    .error "Requires Timezone Information"
  else if PyDateTime.resolutionMicro > 1000000 then
    .error "Requires more accurate time data"
  else
    .ok ⟨name, path, time, is_dir⟩

/-- `Backup.__lt__`: compares timestamps. -/
def ltb (b1 b2 : Backup) : Bool := b1.time.ltb b2.time

/-- `Backup.__gt__`: compares timestamps. -/
def gtb (b1 b2 : Backup) : Bool := b2.time.ltb b1.time

/-- `Backup.__eq__`: equal timestamps and equal paths. -/
def eqb (b1 b2 : Backup) : Bool := b1.time.eqb b2.time && b1.path == b2.path

/-- `Backup.__hash__` hashes the string
`self.time.astimezone(timezone.utc).isoformat() + self.path`; equal
strings hash equal, so the string itself is the model of the hash
key. -/
def hashKey (b : Backup) : PyStr :=
  b.time.astimezoneUTC.isoformat ++ b.path

end Backup

/-! ## Archiver workspace selection (`archive.py`, `_Archive._get_working_path`) -/

/-- `input_size`: total byte size of all files under the source
directory (recursive); the directory is modelled by the list of its
files' sizes. -/
def inputSize (files : List Nat) : Nat := files.sum

/-- `_Archive._get_working_path`: walk the configured working roots in
order (each paired with its `shutil.disk_usage(path).free`), return the
first whose free space strictly exceeds `input_size`, else raise. -/
def getWorkingPath (workingPaths : List (PyStr × Nat)) (size : Nat) :
    Except String PyStr :=
  match workingPaths with
  | [] => .error "Could not find a workspace with enough free space"
  | (p, free) :: rest =>
      if free > size then .ok p else getWorkingPath rest size

/-! ## Snapshot name sanitization and collision avoidance
(`snapshot.py`, `_LETTERS`, `_Btrfs.__init__` / `_Btrfs.create_snapshot`;
`_Zfs` uses the same scheme) -/

/-- `_LETTERS`: ASCII letters, digits and underscore. -/
def isAllowedChar (c : Char) : Bool := c.isAlpha || c.isDigit || c == '_'

/-- `"".join(filter(lambda char: char in _LETTERS, snapname))`. -/
def sanitize (s : PyStr) : PyStr := s.filter isAllowedChar

/-- The `i`-th candidate path tried by `_Btrfs.create_snapshot`:
first `path.joinpath(snapname)`, then
`path.joinpath(f"{snapname}_{get_random_str(10)}")` with a fresh random
suffix per iteration (`rand i` is the `i`-th draw). -/
def candidatePath (dir snapname : PyStr) (rand : Nat → PyStr) : Nat → PyStr
  | 0 => dir ++ '/' :: snapname
  | i + 1 => dir ++ '/' :: (snapname ++ '_' :: rand i)

/-- The `while snap_path.exists():` retry loop of
`_Btrfs.create_snapshot`, as fuelled recursion: try candidate `i`, and
on collision move to candidate `i+1`. -/
def findFreePath (exists_ : PyStr → Bool) (dir snapname : PyStr)
    (rand : Nat → PyStr) : Nat → Nat → Option PyStr
  | 0, _ => none
  | fuel + 1, i =>
      let c := candidatePath dir snapname rand i
      if exists_ c then findFreePath exists_ dir snapname rand fuel (i + 1)
      else some c

/-! ## The compact ISO-8601 timestamp format
(`sync.py`, `ISO8601_COMPACT = "%Y%m%dT%H%M%S%z"`) -/

/-- `strftime("%z")` on an offset of `off` seconds: sign, `HHMM`, and
trailing `SS` only when the offset has a whole-second part
(fractional-second offsets do not occur in this program and are not
modelled). -/
def strftimeZ (off : Int) : PyStr :=
  let a : Nat := off.natAbs
  (if off < 0 then ['-'] else ['+']) ++ pad2 (a / 3600) ++ pad2 (a % 3600 / 60)
    ++ (if a % 60 = 0 then [] else pad2 (a % 60))

/-- `time.strftime(ISO8601_COMPACT)`: `YYYYmmddTHHMMSS±z` (the `%z`
part is empty for a naive datetime). -/
def strftimeCompact (t : PyDateTime) : PyStr :=
  pad4 t.year.toNat ++ pad2 t.month ++ pad2 t.day
    ++ 'T' :: (pad2 t.hour ++ pad2 t.minute ++ pad2 t.second)
    ++ (match t.tzoff with | none => [] | some off => strftimeZ off)

/-- Decimal value of a digit character. -/
def digitVal (c : Char) : Nat := c.toNat - '0'.toNat

/-- `_strptime`'s `%Y` pattern: exactly four digits. -/
def parse4Digits : PyStr → Option (Nat × PyStr)
  | c1 :: c2 :: c3 :: c4 :: rest =>
      if c1.isDigit && c2.isDigit && c3.isDigit && c4.isDigit then
        some (1000 * digitVal c1 + 100 * digitVal c2
          + 10 * digitVal c3 + digitVal c4, rest)
      else none
  | _ => none

/-- `_strptime`'s pattern for a numeric field such as `%m` or `%H`:
prefer a two-digit match with value in `[twoLo, twoHi]`, fall back to a
single digit with value in `[oneLo, oneHi]`. -/
def parseField (twoLo twoHi oneLo oneHi : Nat) : PyStr → Option (Nat × PyStr)
  | [] => none
  | [a] =>
      if a.isDigit && oneLo ≤ digitVal a && digitVal a ≤ oneHi then
        some (digitVal a, [])
      else none
  | a :: b :: rest =>
      let v2 := 10 * digitVal a + digitVal b
      if a.isDigit && b.isDigit && twoLo ≤ v2 && v2 ≤ twoHi then
        some (v2, rest)
      else if a.isDigit && oneLo ≤ digitVal a && digitVal a ≤ oneHi then
        some (digitVal a, b :: rest)
      else none

/-- `_strptime`'s `%z` pattern `[+-]\d\d:?[0-5]\d(:?[0-5]\d)?` or `Z`,
including the `timezone()` bound of strictly less than 24 hours
(violating it raises `ValueError`, i.e. parse failure).  Fractional
second offsets (`.ffffff`) cannot arise from this program's names and
are not modelled. -/
def parseZ : PyStr → Option (Int × PyStr)
  | [] => none
  | c :: rest =>
      if c = 'Z' then some (0, rest)
      else if c = '+' ∨ c = '-' then
        match rest with
        | h1 :: h2 :: rest2 =>
            if h1.isDigit && h2.isDigit then
              let hh := 10 * digitVal h1 + digitVal h2
              let rest3 := if rest2.head? = some ':' then rest2.tail else rest2
              match rest3 with
              | m1 :: m2 :: rest4 =>
                  if m1.isDigit && digitVal m1 ≤ 5 && m2.isDigit then
                    let mm := 10 * digitVal m1 + digitVal m2
                    let secRest : Nat × PyStr :=
                      match rest4 with
                      | s1 :: s2 :: s3 :: r =>
                          if s1 = ':' then
                            if s2.isDigit && digitVal s2 ≤ 5 && s3.isDigit then
                              (10 * digitVal s2 + digitVal s3, r)
                            else (0, rest4)
                          else
                            if s1.isDigit && digitVal s1 ≤ 5 && s2.isDigit then
                              (10 * digitVal s1 + digitVal s2, s3 :: r)
                            else (0, rest4)
                      | [s1, s2] =>
                          if s1 ≠ ':' && s1.isDigit && digitVal s1 ≤ 5
                              && s2.isDigit then
                            (10 * digitVal s1 + digitVal s2, [])
                          else (0, rest4)
                      | _ => (0, rest4)
                    let total : Int := hh * 3600 + mm * 60 + secRest.1
                    if total < 86400 then
                      some (if c = '-' then -total else total, secRest.2)
                    else none
                  else none
              | _ => none
            else none
        | _ => none
      else none

/-- Gregorian leap year, as Python's `calendar`/`datetime` use it. -/
def isLeap (y : Int) : Bool := y % 4 = 0 && (y % 100 ≠ 0 || y % 400 = 0)

/-- Length of a month, used by `datetime`'s day-of-month validation. -/
def daysInMonth (y : Int) (m : Nat) : Nat :=
  if m = 2 then (if isLeap y then 29 else 28)
  else if m = 4 ∨ m = 6 ∨ m = 9 ∨ m = 11 then 30
  else 31

/-- `datetime.strptime(s, ISO8601_COMPACT)`: parse the compact format
and validate the resulting date the way the `datetime` constructor
does; any failure (`ValueError`) is `none`.  The result is an aware
datetime with microsecond 0. -/
def strptimeCompact (s : PyStr) : Option PyDateTime := do
  let (y, s1) ← parse4Digits s
  let (mo, s2) ← parseField 1 12 1 9 s1
  let (d, s3) ← parseField 1 31 1 9 s2
  match s3 with
  | c :: s4 => do
      if c ≠ 'T' then none else do
      let (h, s5) ← parseField 0 23 0 9 s4
      let (mi, s6) ← parseField 0 59 0 9 s5
      let (sec, s7) ← parseField 0 59 0 9 s6
      let (off, s8) ← parseZ s7
      if s8.isEmpty && 1 ≤ y && d ≤ daysInMonth y mo then
        some ⟨y, mo, d, h, mi, sec, 0, some off⟩
      else none
  | _ => none

/-! ## Listing-based reconstruction (`sync.py`, `Sync.get_backups`) -/

/-- One entry of `rclone lsjson` output. -/
structure RawEntry where
  Name : PyStr
  Path : PyStr
  MimeType : PyStr
  deriving Repr, DecidableEq

/-- The timestamp substring `Sync.get_backups` extracts from an entry
name: everything after `"{name}_"`, and for a non-directory entry only
up to the first `.` (Python `split(".")[0]`). -/
def extractTimeStr (cfgName : PyStr) (e : RawEntry) : PyStr :=
  if e.MimeType == "inode/directory".data then
    e.Name.drop (cfgName.length + 1)
  else
    (e.Name.drop (cfgName.length + 1)).takeWhile (· ≠ '.')

/-- The loop body of `Sync.get_backups`: skip entries that do not start
with `"{name}_"` or whose timestamp fails to parse, otherwise build the
`Backup` record (the constructor's checks pass: `strptime` with `%z`
always yields an aware timestamp).  -/
def parseEntry (cfgName : PyStr) (e : RawEntry) : Option Backup :=
  if (cfgName ++ ['_']).isPrefixOf e.Name then
    match strptimeCompact (extractTimeStr cfgName e) with
    | some t => some ⟨e.Name, e.Path, t, e.MimeType == "inode/directory".data⟩
    | none => none
  else none

/-- The record `Sync._backup_dir` constructs and uploads:
name = path = `f"{config.name}_{backup_time_str}"`, directory kind when
archiving is disabled (`is_dir = not config.dst.archive.enable`). -/
def backupDirRecord (cfgName : PyStr) (t : PyDateTime) (archiveEnable : Bool) :
    Backup :=
  ⟨cfgName ++ '_' :: strftimeCompact t, cfgName ++ '_' :: strftimeCompact t,
   t, !archiveEnable⟩

/-- The record `Sync._backup_archive` constructs and uploads: name =
path = the archive file's name `f"{config.name}_{backup_time_str}{ext}"`
(`_Tar`/`_Sevenz`/`_Rar` append their extension to the name the `Sync`
passed in), file kind. -/
def backupArchiveRecord (cfgName : PyStr) (t : PyDateTime) (ext : PyStr) :
    Backup :=
  ⟨cfgName ++ '_' :: (strftimeCompact t ++ ext),
   cfgName ++ '_' :: (strftimeCompact t ++ ext), t, false⟩

/-- The comparison Python's ascending `sorted` effectively uses:
`not (b < a)`. -/
def Backup.leb (a b : Backup) : Bool := !(Backup.ltb b a)

/-- `Sync.get_backups(force)`.  Inputs: the cached history
(`self._backups`), the `force` flag, and the outcome of
`rclone lsjson` (`none` models a `CalledProcessError`).  Returns the
history together with the new cache. -/
def getBackups (cfgName : PyStr) (cache : Option (List Backup))
    (force : Bool) (listing : Option (List RawEntry)) :
    List Backup × Option (List Backup) :=
  if cache.isSome && !force then (cache.getD [], cache)
  else
    match listing with
    | none => ([], cache)
    | some entries =>
        let bs := (entries.filterMap (parseEntry cfgName)).mergeSort Backup.leb
        (bs, some bs)

/-! ## Sync state and `undo` (`sync.py`, `Sync.undo` / `Backup.remove`) -/

/-- In-memory state of one `Sync` instance: the cached history
(`self._backups`) and the in-flight backup (`self.new_backup`). -/
structure SyncState where
  backups : Option (List Backup)
  new_backup : Option Backup
  deriving Repr, DecidableEq

/-- `Backup.remove`: `rclone purge` (directory kind) or `rclone delete`
(file kind) on `f"{dst_path}/{self.path}"` — on the remote's listing of
immediate children, both delete exactly the entries at that path. -/
def removeRemote (b : Backup) (remote : List RawEntry) : List RawEntry :=
  remote.filter (fun e => !(e.Path == b.path))

/-- `Sync.undo`: no-op when nothing is in flight; otherwise re-list the
remote bypassing the cache (`get_backups(force=True)`, which also
refreshes `self._backups`), delete the in-flight record only when it is
in the fresh history (Python `in`, i.e. `__eq__`), and reset
`self.new_backup = None` only in that same branch. -/
def undo (cfgName : PyStr) (st : SyncState)
    (listing : Option (List RawEntry)) :
    SyncState × Option (List RawEntry) :=
  match st.new_backup with
  | none => (st, listing)
  | some nb =>
      let res := getBackups cfgName st.backups true listing
      if !(res.1.any (fun b => Backup.eqb nb b)) then
        ({ st with backups := res.2 }, listing)
      else
        ({ backups := res.2, new_backup := none },
         listing.map (removeRemote nb))

/-! ## Archive lifecycle (`archive.py`, `_Tar.create_archive`) -/

/-- Mutable state of an `_Archive` handler: `self.archive_path` and
`self.tmpdir`. -/
structure ArchiveState where
  archive_path : Option PyStr
  tmpdir : Option PyStr
  deriving Repr, DecidableEq

/-- Externally visible work done by one `create_archive` call. -/
inductive ArchiveEffect
  | selectWorkspace (root : PyStr)
  | mkdtemp (dir : PyStr)
  | runTar (archive : PyStr)
  deriving Repr, DecidableEq

/-- `_Tar.create_archive` (the `_Sevenz`/`_Rar` variants differ only in
tool and extension).  Inputs beyond the object state: the configured
working roots with their free space, the recursive input size, the
fresh scratch directory `tempfile.mkdtemp` would create, the archive
base name and extension, and the list `fs` of existing filesystem
paths.  The cache-hit guard `self.archive_path is not None and
self.archive_path.exists()` returns the stored path with no work;
otherwise a workspace is selected, a scratch directory made, and `tar`
run (a successful run creates the archive file).  Returns the new
state, new filesystem, the returned path, and the effects performed. -/
def createArchive (workingPaths : List (PyStr × Nat)) (size : Nat)
    (tmpName name ext : PyStr) (st : ArchiveState) (fs : List PyStr) :
    Except String (ArchiveState × List PyStr × PyStr × List ArchiveEffect) :=
  if (match st.archive_path with
      | some p => decide (p ∈ fs)
      | none => false) then
    .ok (st, fs, st.archive_path.getD [], [])
  else
    match getWorkingPath workingPaths size with
    | .error e => .error e
    | .ok w =>
        let ap := tmpName ++ '/' :: (name ++ ext)
        if ap ∈ fs then
          .error "FileExistsError"
        else
          .ok (⟨some ap, some tmpName⟩, ap :: tmpName :: fs, ap,
            [.selectWorkspace w, .mkdtemp tmpName, .runTar ap])

/-! ## Retention (`sync.py`, `Sync.clean`; `data_type.py`, `_Timeline`) -/

/-- `_Timeline`: grace window in seconds plus the five keep-counts. -/
structure Timeline where
  min_age : Nat
  limit_hourly : Nat
  limit_daily : Nat
  limit_weekly : Nat
  limit_monthly : Nat
  limit_yearly : Nat
  deriving Repr, DecidableEq

namespace PyDateTime

/-- `backup.time.replace(minute=0, second=0, microsecond=0)`. -/
def truncHour (t : PyDateTime) : PyDateTime :=
  { t with minute := 0, second := 0, microsecond := 0 }

/-- `hour.replace(hour=0)`. -/
def truncDay (t : PyDateTime) : PyDateTime :=
  { t.truncHour with hour := 0 }

/-- `day.weekday()`: Monday = 0 (1970-01-01, day 0, was a Thursday). -/
def weekday (t : PyDateTime) : Int :=
  (daysFromCivil t.year t.month t.day + 3) % 7

/-- `day - timedelta(days=day.weekday())`: wall-clock date arithmetic,
the time-of-day fields and the tzinfo are untouched. -/
def truncWeek (t : PyDateTime) : PyDateTime :=
  let d := t.truncDay
  let c := civilFromDays (daysFromCivil d.year d.month d.day - d.weekday)
  { d with year := c.1, month := c.2.1, day := c.2.2 }

/-- `day.replace(day=1)`. -/
def truncMonth (t : PyDateTime) : PyDateTime :=
  { t.truncDay with day := 1 }

/-- `month.replace(month=1)`. -/
def truncYear (t : PyDateTime) : PyDateTime :=
  { t.truncMonth with month := 1 }

end PyDateTime

/-- The five bucket keys of `Sync.clean`.  The Python dict keys are the
truncated aware datetimes, for which both equality and the descending
sort compare the denoted instant, so the instant (`epochMicro` of the
truncated timestamp) is the faithful key. -/
def hourKey (b : Backup) : Int := b.time.truncHour.epochMicro

/-- Daily bucket key (instant of the truncated timestamp). -/
def dayKey (b : Backup) : Int := b.time.truncDay.epochMicro

/-- Weekly bucket key (instant of the truncated timestamp). -/
def weekKey (b : Backup) : Int := b.time.truncWeek.epochMicro

/-- Monthly bucket key (instant of the truncated timestamp). -/
def monthKey (b : Backup) : Int := b.time.truncMonth.epochMicro

/-- Yearly bucket key (instant of the truncated timestamp). -/
def yearKey (b : Backup) : Int := b.time.truncYear.epochMicro

/-- Association-list lookup, modelling `dict.get` on instant keys. -/
def lookupKey : List (Int × Backup) → Int → Option Backup
  | [], _ => none
  | (k, v) :: rest, k' => if k = k' then some v else lookupKey rest k'

/-- In-place overwrite of an existing dict entry (insertion order is
preserved, as for Python dicts). -/
def replaceKey : List (Int × Backup) → Int → Backup → List (Int × Backup)
  | [], _, _ => []
  | (k, v) :: rest, k', b =>
      if k = k' then (k', b) :: rest else (k, v) :: replaceKey rest k' b

/-- The bucket-map update of `Sync.clean`'s loop body for one tier:
`if grouping[name].get(time) is None: grouping[name][time] = backup`
`elif backup < grouping[name][time]: grouping[name][time] = backup`. -/
def insertRep (key : Backup → Int) (acc : List (Int × Backup)) (b : Backup) :
    List (Int × Backup) :=
  match lookupKey acc (key b) with
  | none => acc ++ [(key b, b)]
  | some r => if b.ltb r then replaceKey acc (key b) b else acc

/-- The per-tier bucket map after the loop over all bucketed records. -/
def groupTier (key : Backup → Int) (bs : List Backup) : List (Int × Backup) :=
  bs.foldl (insertRep key) []

/-- `sorted(local_group.items(), reverse=True)`: dict items sorted by
descending key (the keys of a dict are distinct, so the tuple
comparison never reaches the values). -/
def sortPairsDesc (l : List (Int × Backup)) : List (Int × Backup) :=
  l.mergeSort (fun x y => decide (y.1 ≤ x.1))

/-- The grace-window test of `Sync.clean`:
`cur_time - backup.time < timedelta(seconds=min_age)` at microsecond
precision; `cur` is the instant of `datetime.now(timezone.utc)` in
microseconds. -/
def grace (minAge : Nat) (cur : Int) (b : Backup) : Bool :=
  decide (cur - b.time.epochMicro < (minAge : Int) * 1000000)

/-- The `keep_alive` set of `Sync.clean` as a list: the single pass
adds each record younger than `min_age` to the kept set and buckets
the rest; afterwards, for each tier, the representatives of the first
`limit` buckets in descending key order are added. -/
def keepAlive (tl : Timeline) (cur : Int) (backups : List Backup) :
    List Backup :=
  let bucketed := backups.filter (fun b => !(grace tl.min_age cur b))
  let tierKeep := fun (key : Backup → Int) (limit : Nat) =>
    ((sortPairsDesc (groupTier key bucketed)).take limit).map Prod.snd
  backups.filter (grace tl.min_age cur)
    ++ tierKeep hourKey tl.limit_hourly
    ++ tierKeep dayKey tl.limit_daily
    ++ tierKeep weekKey tl.limit_weekly
    ++ tierKeep monthKey tl.limit_monthly
    ++ tierKeep yearKey tl.limit_yearly

/-- The records `Sync.clean` deletes: nothing when the history is
empty (early return), otherwise `set(backups) - keep_alive` — every
record with no `__eq__`-equal member of the kept set. -/
def deadBackups (tl : Timeline) (cur : Int) (backups : List Backup) :
    List Backup :=
  if backups.isEmpty then []
  else backups.filter
    (fun b => !((keepAlive tl cur backups).any (fun k => Backup.eqb b k)))

/-- Formalization of the claim's kept set for one tier: `b` is the
representative of its bucket — the first record, in ascending time
order (hence the earliest), whose truncated timestamp equals the
bucket key — and its bucket key is among the `limit` most recent
bucket keys (the first `limit` of the distinct keys sorted
descending). -/
def specTierKeeps (key : Backup → Int) (limit : Nat)
    (bucketed : List Backup) (b : Backup) : Prop :=
  bucketed.find? (fun x => key x == key b) = some b ∧
  key b ∈ (((bucketed.map key).dedup).mergeSort
    (fun x y => decide (y ≤ x))).take limit

/-- Formalization of the claim's kept set: the grace window united
with the five tiers' kept representatives. -/
def specKeeps (tl : Timeline) (cur : Int) (backups : List Backup)
    (b : Backup) : Prop :=
  let bucketed := backups.filter (fun x => !(grace tl.min_age cur x))
  grace tl.min_age cur b = true ∨
  specTierKeeps hourKey tl.limit_hourly bucketed b ∨
  specTierKeeps dayKey tl.limit_daily bucketed b ∨
  specTierKeeps weekKey tl.limit_weekly bucketed b ∨
  specTierKeeps monthKey tl.limit_monthly bucketed b ∨
  specTierKeeps yearKey tl.limit_yearly bucketed b

/-! ## Theorems -/

lemma digitChar_isDigit : ∀ d : Nat, d < 10 → (Nat.digitChar d).isDigit = true := by
  decide

lemma digitVal_digitChar : ∀ d : Nat, d < 10 → digitVal (Nat.digitChar d) = d := by
  decide

lemma digitChar_ne_dot : ∀ d : Nat, d < 10 → (Nat.digitChar d = '.') = False := by
  decide

lemma digitChar_ne_colon : ∀ d : Nat, d < 10 → (Nat.digitChar d = ':') = False := by
  decide

lemma parse4_pad4 (y : Nat) (hy : y ≤ 9999) (rest : PyStr) :
    parse4Digits (pad4 y ++ rest) = some (y, rest) := by
  have i1 := digitChar_isDigit (y / 1000 % 10) (by omega)
  have i2 := digitChar_isDigit (y / 100 % 10) (by omega)
  have i3 := digitChar_isDigit (y / 10 % 10) (by omega)
  have i4 := digitChar_isDigit (y % 10) (by omega)
  have v1 := digitVal_digitChar (y / 1000 % 10) (by omega)
  have v2 := digitVal_digitChar (y / 100 % 10) (by omega)
  have v3 := digitVal_digitChar (y / 10 % 10) (by omega)
  have v4 := digitVal_digitChar (y % 10) (by omega)
  simp only [pad4, List.cons_append, List.nil_append, parse4Digits,
    i1, i2, i3, i4, v1, v2, v3, v4, Bool.and_self, if_true,
    Option.some.injEq, Prod.mk.injEq]
  exact ⟨by omega, trivial⟩

lemma parseField_pad2 (twoLo twoHi oneLo oneHi v : Nat) (rest : PyStr)
    (h1 : twoLo ≤ v) (h2 : v ≤ twoHi) (h3 : v < 100) :
    parseField twoLo twoHi oneLo oneHi (pad2 v ++ rest) = some (v, rest) := by
  have i1 := digitChar_isDigit (v / 10 % 10) (by omega)
  have i2 := digitChar_isDigit (v % 10) (by omega)
  have v1 := digitVal_digitChar (v / 10 % 10) (by omega)
  have v2 := digitVal_digitChar (v % 10) (by omega)
  have hv : 10 * (v / 10 % 10) + v % 10 = v := by omega
  simp only [pad2, List.cons_append, List.nil_append, parseField,
    i1, i2, v1, v2, hv, Bool.and_eq_true, decide_eq_true_eq,
    h1, h2, and_true, true_and, and_self, if_true]

lemma parseZ_strftimeZ (off : Int) (habs : off.natAbs < 86400) :
    parseZ (strftimeZ off) = some (off, []) := by
  set a := off.natAbs with ha
  have hhlt : a / 3600 < 100 := by omega
  have hmlt : a % 3600 / 60 ≤ 59 := by omega
  have i1 := digitChar_isDigit (a / 3600 / 10 % 10) (by omega)
  have i2 := digitChar_isDigit (a / 3600 % 10) (by omega)
  have i3 := digitChar_isDigit (a % 3600 / 60 / 10 % 10) (by omega)
  have i4 := digitChar_isDigit (a % 3600 / 60 % 10) (by omega)
  have v1 := digitVal_digitChar (a / 3600 / 10 % 10) (by omega)
  have v2 := digitVal_digitChar (a / 3600 % 10) (by omega)
  have v3 := digitVal_digitChar (a % 3600 / 60 / 10 % 10) (by omega)
  have v4 := digitVal_digitChar (a % 3600 / 60 % 10) (by omega)
  have nc3 := digitChar_ne_colon (a % 3600 / 60 / 10 % 10) (by omega)
  have i5 := digitChar_isDigit (a % 60 / 10 % 10) (by omega)
  have i6 := digitChar_isDigit (a % 60 % 10) (by omega)
  have v5 := digitVal_digitChar (a % 60 / 10 % 10) (by omega)
  have v6 := digitVal_digitChar (a % 60 % 10) (by omega)
  have nc5 := digitChar_ne_colon (a % 60 / 10 % 10) (by omega)
  have hm5 : a % 3600 / 60 / 10 % 10 ≤ 5 := by omega
  have hs5 : a % 60 / 10 % 10 ≤ 5 := by omega
  have hmZ : ('-' = 'Z') = False := by decide
  have hpZ : ('+' = 'Z') = False := by decide
  have hmp : ('-' = '+') = False := by decide
  have hpm : ('+' = '-') = False := by decide
  by_cases hneg : off < 0 <;> by_cases hss : a % 60 = 0 <;>
    · simp only [strftimeZ, ← ha, hneg, hss, if_true, if_false, pad2,
        List.cons_append, List.nil_append, List.append_nil, parseZ,
        i1, i2, i3, i4, i5, i6, Bool.and_self, List.head?_cons,
        nc3, nc5, v1, v2, v3, v4, v5, v6, hm5, hs5,
        hmZ, hpZ, hmp, hpm, Option.some.injEq, reduceCtorEq, if_neg,
        Bool.and_eq_true, decide_eq_true_eq, ne_eq, not_false_iff,
        eq_self_iff_true, and_true, true_and, and_self, or_true,
        true_or, or_false, false_or, if_false, if_true]
      rw [if_pos (by push_cast; omega)]
      simp only [Option.some.injEq, Prod.mk.injEq]
      exact ⟨by push_cast; omega, trivial⟩

/-- Round trip of the compact ISO-8601 format: parsing a formatted
timezone-aware whole-second timestamp recovers it exactly. -/
lemma strptime_strftime (t : PyDateTime) (off : Int)
    (hoff : t.tzoff = some off) (habs : off.natAbs < 86400)
    (hy1 : 1 ≤ t.year) (hy2 : t.year ≤ 9999)
    (hmo1 : 1 ≤ t.month) (hmo2 : t.month ≤ 12)
    (hd1 : 1 ≤ t.day) (hd2 : t.day ≤ daysInMonth t.year t.month)
    (hh : t.hour ≤ 23) (hmi : t.minute ≤ 59) (hs : t.second ≤ 59)
    (hus : t.microsecond = 0) :
    strptimeCompact (strftimeCompact t) = some t := by
  obtain ⟨year, month, day, hour, minute, second, us, tz⟩ := t
  simp only at hoff hy1 hy2 hmo1 hmo2 hd1 hd2 hh hmi hs hus
  subst hoff hus
  have hyy : ((year.toNat : Int)) = year := Int.toNat_of_nonneg (by omega)
  have hfmt : strftimeCompact ⟨year, month, day, hour, minute, second, 0, some off⟩
      = pad4 year.toNat ++ (pad2 month ++ (pad2 day
        ++ ('T' :: (pad2 hour ++ (pad2 minute
        ++ (pad2 second ++ strftimeZ off)))))) := by
    simp [strftimeCompact, List.append_assoc]
  have P1 := parse4_pad4 year.toNat (by omega)
    (pad2 month ++ (pad2 day ++ ('T' :: (pad2 hour ++ (pad2 minute
      ++ (pad2 second ++ strftimeZ off))))))
  have P2 := parseField_pad2 1 12 1 9 month
    (pad2 day ++ ('T' :: (pad2 hour ++ (pad2 minute
      ++ (pad2 second ++ strftimeZ off)))))
    hmo1 hmo2 (by omega)
  have hdm : daysInMonth year month ≤ 31 := by
    unfold daysInMonth
    split
    · split <;> omega
    · split <;> omega
  have hday31 : day ≤ 31 := le_trans hd2 hdm
  have P3 := parseField_pad2 1 31 1 9 day
    ('T' :: (pad2 hour ++ (pad2 minute ++ (pad2 second ++ strftimeZ off))))
    hd1 hday31 (by omega)
  have P4 := parseField_pad2 0 23 0 9 hour
    (pad2 minute ++ (pad2 second ++ strftimeZ off))
    (by omega) hh (by omega)
  have P5 := parseField_pad2 0 59 0 9 minute
    (pad2 second ++ strftimeZ off) (by omega) hmi (by omega)
  have P6 := parseField_pad2 0 59 0 9 second
    (strftimeZ off) (by omega) hs (by omega)
  have P7 := parseZ_strftimeZ off habs
  rw [hfmt]
  simp only [strptimeCompact, P1, P2, P3, P4, P5, P6, P7, Option.bind_eq_bind,
    Option.some_bind, ne_eq, reduceIte, List.isEmpty_nil, Bool.true_and,
    Bool.and_eq_true, decide_eq_true_eq, hyy]
  rw [if_neg (fun h => h trivial), if_pos ⟨⟨trivial, by omega⟩, hd2⟩]

lemma digitChar_not_dot : ∀ d : Nat, d < 10 → Nat.digitChar d ≠ '.' := by
  decide

lemma pad2_no_dot (n : Nat) : ∀ c ∈ pad2 n, c ≠ '.' := by
  intro c hc
  simp only [pad2, List.mem_cons, List.not_mem_nil, or_false] at hc
  rcases hc with h | h <;> subst h <;> exact digitChar_not_dot _ (by omega)

lemma pad4_no_dot (n : Nat) : ∀ c ∈ pad4 n, c ≠ '.' := by
  intro c hc
  simp only [pad4, List.mem_cons, List.not_mem_nil, or_false] at hc
  rcases hc with h | h | h | h <;> subst h <;>
    exact digitChar_not_dot _ (by omega)

lemma strftimeZ_no_dot (off : Int) : ∀ c ∈ strftimeZ off, c ≠ '.' := by
  simp only [strftimeZ, List.forall_mem_append]
  refine ⟨⟨⟨?_, pad2_no_dot _⟩, pad2_no_dot _⟩, ?_⟩
  · by_cases h : off < 0 <;> simp [h]
  · by_cases h : off.natAbs % 60 = 0 <;> simp [h]
    exact pad2_no_dot _

lemma strftimeCompact_no_dot (t : PyDateTime) (off : Int)
    (hoff : t.tzoff = some off) : ∀ c ∈ strftimeCompact t, c ≠ '.' := by
  simp only [strftimeCompact, hoff, List.forall_mem_append,
    List.forall_mem_cons]
  exact ⟨⟨⟨⟨pad4_no_dot _, pad2_no_dot _⟩, pad2_no_dot _⟩,
    by decide, ⟨pad2_no_dot _, pad2_no_dot _⟩, pad2_no_dot _⟩,
    strftimeZ_no_dot _⟩

lemma drop_len_succ (p : PyStr) (c : Char) (rest : PyStr) :
    (p ++ c :: rest).drop (p.length + 1) = rest := by
  have h : p ++ c :: rest = (p ++ [c]) ++ rest := by simp
  rw [h, show p.length + 1 = (p ++ [c]).length by simp, List.drop_left]

lemma takeWhile_append_stop {p : Char → Bool} (l1 : PyStr) (c : Char)
    (l2 : PyStr) (h1 : ∀ x ∈ l1, p x = true) (hc : p c = false) :
    (l1 ++ c :: l2).takeWhile p = l1 := by
  induction l1 with
  | nil => simp [List.takeWhile_cons, hc]
  | cons a l ih =>
      simp only [List.cons_append, List.takeWhile_cons,
        h1 a (List.mem_cons_self a l), if_true]
      rw [ih (fun x hx => h1 x (List.mem_cons_of_mem a hx))]

lemma prefix_underscore (cfgName rest : PyStr) :
    (cfgName ++ ['_']).isPrefixOf (cfgName ++ '_' :: rest) = true := by
  rw [List.isPrefixOf_iff_prefix]
  exact ⟨rest, by simp⟩

/-- A parsed timestamp is always timezone-aware (`%z` is mandatory in
the compact format). -/
lemma strptimeCompact_aware {s : PyStr} {t : PyDateTime}
    (h : strptimeCompact s = some t) : t.tzoff.isSome := by
  unfold strptimeCompact at h
  simp only [Option.bind_eq_bind, Option.bind_eq_some] at h
  obtain ⟨⟨y, s1⟩, h1, h⟩ := h
  obtain ⟨⟨mo, s2⟩, h2, h⟩ := h
  obtain ⟨⟨d, s3⟩, h3, h⟩ := h
  split at h
  · split at h
    · cases h
    · simp only [Option.bind_eq_bind, Option.bind_eq_some] at h
      obtain ⟨⟨hr, s5⟩, h4, h⟩ := h
      obtain ⟨⟨mi, s6⟩, h5, h⟩ := h
      obtain ⟨⟨sec, s7⟩, h6, h⟩ := h
      obtain ⟨⟨off, s8⟩, h7, h⟩ := h
      split at h
      · cases h
        rfl
      · cases h
  · cases h

/-- `parseEntry` only produces timezone-aware records. -/
lemma parseEntry_aware {cfgName : PyStr} {e : RawEntry} {b : Backup}
    (h : parseEntry cfgName e = some b) : b.time.tzoff.isSome := by
  unfold parseEntry at h
  split at h
  · rcases hm : strptimeCompact (extractTimeStr cfgName e) with _ | t
    · rw [hm] at h
      cases h
    · rw [hm] at h
      cases h
      exact strptimeCompact_aware hm
  · cases h

/-- On timezone-aware records the comparison `sorted` uses coincides
with instant comparison. -/
lemma leb_aware {a b : Backup} (ha : a.time.tzoff.isSome)
    (hb : b.time.tzoff.isSome) :
    Backup.leb a b = decide (a.time.epochMicro ≤ b.time.epochMicro) := by
  rcases Option.isSome_iff_exists.mp ha with ⟨x, hx⟩
  rcases Option.isSome_iff_exists.mp hb with ⟨y, hy⟩
  simp only [Backup.leb, Backup.ltb, PyDateTime.ltb, hx, hy]
  rw [show (decide (b.time.epochMicro < a.time.epochMicro))
    = !decide (a.time.epochMicro ≤ b.time.epochMicro) by
      by_cases h : a.time.epochMicro ≤ b.time.epochMicro
      · rw [decide_eq_true h, decide_eq_false (by omega)]
        rfl
      · rw [decide_eq_false h, decide_eq_true (by omega)]
        rfl]
  rw [Bool.not_not]

lemma lookupKey_append (l1 l2 : List (Int × Backup)) (k : Int) :
    lookupKey (l1 ++ l2) k
      = match lookupKey l1 k with
        | some v => some v
        | none => lookupKey l2 k := by
  induction l1 with
  | nil => rfl
  | cons p rest ih =>
      obtain ⟨k0, v0⟩ := p
      by_cases h : k0 = k <;> simp [lookupKey, h, ih]

lemma lookupKey_mem {l : List (Int × Backup)} {k : Int} {v : Backup}
    (h : lookupKey l k = some v) : (k, v) ∈ l := by
  induction l with
  | nil => cases h
  | cons p rest ih =>
      obtain ⟨k0, v0⟩ := p
      unfold lookupKey at h
      split at h
      · rename_i heq
        have hv := Option.some.inj h
        subst heq
        subst hv
        exact List.mem_cons_self _ _
      · exact List.mem_cons_of_mem _ (ih h)

lemma mem_lookupKey {l : List (Int × Backup)} {k : Int} {v : Backup}
    (hnd : (l.map Prod.fst).Nodup) (h : (k, v) ∈ l) :
    lookupKey l k = some v := by
  induction l with
  | nil => cases h
  | cons p rest ih =>
      obtain ⟨k0, v0⟩ := p
      simp only [List.map_cons, List.nodup_cons] at hnd
      rcases List.mem_cons.mp h with heq | hmem
      · obtain ⟨rfl, rfl⟩ := Prod.mk.injEq _ _ _ _ ▸ heq
        simp [lookupKey]
      · have hk : k0 ≠ k := by
          intro hkk
          apply hnd.1
          rw [hkk]
          exact List.mem_map.mpr ⟨(k, v), hmem, rfl⟩
        simp only [lookupKey, if_neg hk]
        exact ih hnd.2 hmem

lemma lookupKey_isSome_iff (l : List (Int × Backup)) (k : Int) :
    (lookupKey l k).isSome = true ↔ k ∈ l.map Prod.fst := by
  induction l with
  | nil => simp [lookupKey]
  | cons p rest ih =>
      obtain ⟨k0, v0⟩ := p
      simp only [lookupKey, List.map_cons, List.mem_cons]
      by_cases h : k0 = k
      · simp [h]
      · simp only [if_neg h, ih]
        constructor
        · exact fun hm => Or.inr hm
        · rintro (hm | hm)
          · exact absurd hm.symm h
          · exact hm

lemma replaceKey_map_fst (l : List (Int × Backup)) (k : Int) (b : Backup) :
    (replaceKey l k b).map Prod.fst = l.map Prod.fst := by
  induction l with
  | nil => rfl
  | cons p rest ih =>
      obtain ⟨k0, v0⟩ := p
      by_cases h : k0 = k <;> simp [replaceKey, h, ih]

/-- On an ascending, timezone-aware history the bucket map sends each
key to the *first* record with that key: the `elif backup < existing`
replacement never fires. -/
lemma groupTier_go (key : Backup → Int) :
    ∀ (bs p : List Backup) (acc : List (Int × Backup)),
      (∀ k, lookupKey acc k = p.find? (fun b => key b == k)) →
      (∀ x ∈ p, x.time.tzoff.isSome) →
      (∀ y ∈ bs, y.time.tzoff.isSome) →
      (∀ x ∈ p, ∀ y ∈ bs, x.time.epochMicro ≤ y.time.epochMicro) →
      bs.Pairwise (fun a b => a.time.epochMicro ≤ b.time.epochMicro) →
      ∀ k, lookupKey (bs.foldl (insertRep key) acc) k
        = (p ++ bs).find? (fun b => key b == k) := by
  intro bs
  induction bs with
  | nil =>
      intro p acc hfind _ _ _ _ k
      simpa using hfind k
  | cons b bs ih =>
      intro p acc hfind hawp hawb hpb hasc k
      rw [List.foldl_cons]
      have hstep : ∀ k', lookupKey (insertRep key acc b) k'
          = (p ++ [b]).find? (fun x => key x == k') := by
        intro k'
        unfold insertRep
        rcases hl : lookupKey acc (key b) with _ | r
        · rw [lookupKey_append, List.find?_append, hfind k']
          rcases hf : p.find? (fun x => key x == k') with _ | v
          · by_cases hk : key b = k'
            · simp [lookupKey, List.find?_cons, hk]
            · have hkb : (key b == k') = false := by
                simp [hk]
              simp [lookupKey, List.find?_cons, hk, hkb]
          · simp
        · have hrfind : p.find? (fun x => key x == key b) = some r := by
            rw [← hfind]
            exact hl
          have hrmem : r ∈ p := List.mem_of_find?_eq_some hrfind
          have hble : r.time.epochMicro ≤ b.time.epochMicro :=
            hpb r hrmem b (List.mem_cons_self _ _)
          have hltb : b.ltb r = false := by
            rcases Option.isSome_iff_exists.mp (hawp r hrmem) with ⟨o1, ho1⟩
            rcases Option.isSome_iff_exists.mp
              (hawb b (List.mem_cons_self _ _)) with ⟨o2, ho2⟩
            simp only [Backup.ltb, PyDateTime.ltb, ho1, ho2,
              decide_eq_false_iff_not]
            omega
          simp only [hltb, Bool.false_eq_true, if_false]
          rw [List.find?_append, hfind k']
          rcases hf : p.find? (fun x => key x == k') with _ | v
          · have hk : key b ≠ k' := by
              intro hkk
              rw [hkk] at hrfind
              rw [hrfind] at hf
              cases hf
            have hkb : (key b == k') = false := by
              simp [hk]
            simp [List.find?_cons, hkb]
          · simp
      have hres := ih (p ++ [b]) (insertRep key acc b) hstep
        (by
          intro x hx
          rcases List.mem_append.mp hx with h | h
          · exact hawp x h
          · rw [List.mem_singleton.mp h]
            exact hawb b (List.mem_cons_self _ _))
        (fun y hy => hawb y (List.mem_cons_of_mem _ hy))
        (by
          intro x hx y hy
          rcases List.mem_append.mp hx with h | h
          · exact hpb x h y (List.mem_cons_of_mem _ hy)
          · rw [List.mem_singleton.mp h]
            exact (List.pairwise_cons.mp hasc).1 y hy)
        ((List.pairwise_cons.mp hasc).2) k
      simpa [List.append_assoc] using hres

/-- The bucket map of one tier sends each key to the first record of
that bucket in the (ascending) history. -/
lemma groupTier_lookup (key : Backup → Int) (bs : List Backup)
    (hawb : ∀ y ∈ bs, y.time.tzoff.isSome)
    (hasc : bs.Pairwise (fun a b => a.time.epochMicro ≤ b.time.epochMicro)) :
    ∀ k, lookupKey (groupTier key bs) k
      = bs.find? (fun b => key b == k) := by
  intro k
  have h := groupTier_go key bs [] [] (fun _ => rfl) (by simp) hawb
    (by simp) hasc k
  simpa [groupTier] using h

/-- The bucket map has no duplicate keys. -/
lemma groupTier_nodup_keys (key : Backup → Int) (bs : List Backup) :
    ((groupTier key bs).map Prod.fst).Nodup := by
  suffices h : ∀ acc : List (Int × Backup), (acc.map Prod.fst).Nodup →
      ((bs.foldl (insertRep key) acc).map Prod.fst).Nodup by
    exact h [] (by simp)
  induction bs with
  | nil => exact fun acc h => h
  | cons b bs ih =>
      intro acc hacc
      rw [List.foldl_cons]
      refine ih (insertRep key acc b) ?_
      unfold insertRep
      rcases hl : lookupKey acc (key b) with _ | r
      · have hnotin : key b ∉ acc.map Prod.fst := by
          rw [← lookupKey_isSome_iff, hl]
          simp
        simp [List.nodup_append, hacc, hnotin]
      · rcases hlt : b.ltb r
        · simp only [hlt, Bool.false_eq_true, if_false]
          exact hacc
        · simp only [hlt, if_true]
          rw [replaceKey_map_fst]
          exact hacc

/-- In a strictly-descending list, membership in the first `n` elements
is membership plus fewer than `n` strictly greater elements. -/
lemma mem_take_sorted_desc {α : Type} (f : α → Int) :
    ∀ (l : List α) (n : Nat),
      l.Pairwise (fun x y => f y < f x) →
      ∀ x, x ∈ l.take n ↔
        x ∈ l ∧ l.countP (fun y => decide (f x < f y)) < n := by
  intro l
  induction l with
  | nil =>
      intro n _ x
      simp
  | cons a t ih =>
      intro n hs x
      obtain ⟨hhead, htail⟩ := List.pairwise_cons.mp hs
      cases n with
      | zero => simp
      | succ n =>
          rw [List.take_succ_cons]
          simp only [List.mem_cons, List.countP_cons]
          constructor
          · rintro (rfl | hx)
            · refine ⟨Or.inl rfl, ?_⟩
              have h0 : t.countP (fun y => decide (f x < f y)) = 0 := by
                rw [List.countP_eq_zero]
                intro y hy
                simp only [decide_eq_true_eq, not_lt]
                exact le_of_lt (hhead y hy)
              simp [h0]
            · obtain ⟨hmem, hcnt⟩ := (ih n htail x).mp hx
              have hxa : f x < f a := hhead x hmem
              refine ⟨Or.inr hmem, ?_⟩
              simp only [hxa, decide_true_eq_true, if_true]
              omega
          · rintro ⟨rfl | hmem, hcnt⟩
            · exact Or.inl rfl
            · refine Or.inr ((ih n htail x).mpr ⟨hmem, ?_⟩)
              have hxa : f x < f a := hhead x hmem
              simp only [hxa, decide_true_eq_true, if_true] at hcnt
              omega

/-- Sorting a list with distinct `Int` keys descending yields a
strictly descending list. -/
lemma mergeSort_desc_strict {α : Type} (f : α → Int) (l : List α)
    (hnd : (l.map f).Nodup) :
    (l.mergeSort (fun x y => decide (f y ≤ f x))).Pairwise
      (fun x y => f y < f x) := by
  have hsorted := @List.sorted_mergeSort α
    (fun x y : α => decide (f y ≤ f x))
    (fun a b c hab hbc => by
      simp only [decide_eq_true_eq] at hab hbc ⊢
      omega)
    (fun a b => by
      rcases Int.le_total (f a) (f b) with h | h <;> simp [h])
    l
  have hperm : (l.mergeSort (fun x y => decide (f y ≤ f x))).map f |>.Nodup :=
    hnd.perm ((List.mergeSort_perm l _).map f).symm
  have hne : (l.mergeSort (fun x y => decide (f y ≤ f x))).Pairwise
      (fun x y => f x ≠ f y) := List.pairwise_map.mp hperm
  exact (hsorted.and hne).imp (fun h => by
    obtain ⟨h1, h2⟩ := h
    simp only [decide_eq_true_eq] at h1
    omega)

/-- One tier of `Sync.clean` keeps exactly the records described by the
spec: the earliest record of each of the `limit` most recent buckets. -/
lemma tierKeep_mem_iff (key : Backup → Int) (limit : Nat) (bs : List Backup)
    (hawb : ∀ y ∈ bs, y.time.tzoff.isSome)
    (hasc : bs.Pairwise (fun a b => a.time.epochMicro ≤ b.time.epochMicro))
    (v : Backup) :
    v ∈ ((sortPairsDesc (groupTier key bs)).take limit).map Prod.snd ↔
      specTierKeeps key limit bs v := by
  have hlk := groupTier_lookup key bs hawb hasc
  have hndk := groupTier_nodup_keys key bs
  have hstrict : (sortPairsDesc (groupTier key bs)).Pairwise
      (fun x y => y.1 < x.1) :=
    mergeSort_desc_strict Prod.fst _ hndk
  have hkeys_strict : (((bs.map key).dedup).mergeSort
      (fun x y => decide (y ≤ x))).Pairwise (fun x y : Int => y < x) :=
    mergeSort_desc_strict id _ (by
      simpa using List.nodup_dedup (bs.map key))
  have hmemk : ∀ k', k' ∈ (groupTier key bs).map Prod.fst ↔
      k' ∈ (bs.map key).dedup := by
    intro k'
    rw [List.mem_dedup, ← lookupKey_isSome_iff, hlk k', List.find?_isSome]
    simp only [beq_iff_eq, List.mem_map]
  have hpermk : ((groupTier key bs).map Prod.fst).Perm ((bs.map key).dedup) :=
    (List.perm_ext_iff_of_nodup hndk (List.nodup_dedup _)).mpr hmemk
  have hcount : ∀ k0 : Int,
      (sortPairsDesc (groupTier key bs)).countP (fun y => decide (k0 < y.1))
        = ((bs.map key).dedup).countP (fun k' => decide (k0 < k')) := by
    intro k0
    have hps : (sortPairsDesc (groupTier key bs)).countP
        (fun y => decide (k0 < y.1))
        = (groupTier key bs).countP (fun y => decide (k0 < y.1)) :=
      List.Perm.countP_eq _ (List.mergeSort_perm _ _)
    rw [hps]
    have h1 := List.countP_map (fun k' : Int => decide (k0 < k')) Prod.fst
      (groupTier key bs)
    rw [show ((fun k' : Int => decide (k0 < k')) ∘ Prod.fst)
      = (fun y : Int × Backup => decide (k0 < y.1)) from rfl] at h1
    rw [← h1]
    exact List.Perm.countP_eq _ hpermk
  simp only [specTierKeeps]
  constructor
  · intro hv
    obtain ⟨pr, hpr, hsnd⟩ := List.mem_map.mp hv
    obtain ⟨k0, v0⟩ := pr
    have hsnd' : v0 = v := hsnd
    subst hsnd'
    obtain ⟨hmemS, hcnt⟩ :=
      (mem_take_sorted_desc Prod.fst _ limit hstrict _).mp hpr
    have hmemG : (k0, v0) ∈ groupTier key bs := List.mem_mergeSort.mp hmemS
    have hfind : bs.find? (fun b => key b == k0) = some v0 := by
      rw [← hlk]
      exact mem_lookupKey hndk hmemG
    have hk0 : key v0 = k0 := by simpa using List.find?_some hfind
    subst hk0
    refine ⟨hfind, ?_⟩
    rw [mem_take_sorted_desc id _ limit hkeys_strict]
    constructor
    · exact List.mem_mergeSort.mpr (List.mem_dedup.mpr
        (List.mem_map.mpr ⟨v0, List.mem_of_find?_eq_some hfind, rfl⟩))
    · rw [List.Perm.countP_eq _ (List.mergeSort_perm _ _)]
      simp only [id_eq]
      rw [← hcount (key v0)]
      exact hcnt
  · rintro ⟨hfind, hmemtake⟩
    obtain ⟨hkmemS, hkcnt⟩ :=
      (mem_take_sorted_desc id _ limit hkeys_strict _).mp hmemtake
    have hmemG : (key v, v) ∈ groupTier key bs :=
      lookupKey_mem (by rw [hlk]; exact hfind)
    have hprmem : (key v, v) ∈ sortPairsDesc (groupTier key bs) :=
      List.mem_mergeSort.mpr hmemG
    have hcnt' : (sortPairsDesc (groupTier key bs)).countP
        (fun y => decide (key v < y.1)) < limit := by
      rw [hcount (key v)]
      rw [List.Perm.countP_eq _ (List.mergeSort_perm _ _)] at hkcnt
      exact hkcnt
    exact List.mem_map.mpr
      ⟨(key v, v),
        (mem_take_sorted_desc Prod.fst _ limit hstrict (key v, v)).mpr
          ⟨hprmem, hcnt'⟩, rfl⟩

/-- The retry loop succeeds as soon as some tried candidate is free. -/
lemma findFreePath_of_free (exists_ : PyStr → Bool) (dir snapname : PyStr)
    (rand : Nat → PyStr) :
    ∀ fuel i,
      (∃ k, k < fuel ∧
        exists_ (candidatePath dir snapname rand (i + k)) = false) →
      ∃ p, findFreePath exists_ dir snapname rand fuel i = some p ∧
        exists_ p = false := by
  intro fuel
  induction fuel with
  | zero =>
      rintro i ⟨k, hk, -⟩
      omega
  | succ fuel ih =>
      rintro i ⟨k, hk, hfree⟩
      rcases hc : exists_ (candidatePath dir snapname rand i) with _ | _
      · exact ⟨candidatePath dir snapname rand i,
          by simp [findFreePath, hc], hc⟩
      · have hnext : ∃ k', k' < fuel ∧
            exists_ (candidatePath dir snapname rand (i + 1 + k')) = false := by
          cases k with
          | zero =>
              rw [Nat.add_zero] at hfree
              rw [hfree] at hc
              exact absurd hc (by simp)
          | succ k' =>
              exact ⟨k', by omega,
                by rw [show i + 1 + k' = i + (k' + 1) by omega]; exact hfree⟩
        obtain ⟨p, hp, hf⟩ := ih (i + 1) hnext
        exact ⟨p, by simp [findFreePath, hc, hp], hf⟩

/-- C3: `Backup.__init__` does reject naive timestamps and accept
timezone-aware whole-second ones, but it does *not* reject sub-second
timestamps: the guard compares the class attribute
`datetime.resolution` (a constant one microsecond) against one second,
which is always false, so a timestamp with `microsecond = 500000`
is accepted even though the spec requires construction to fail. -/
theorem backup_init_subsecond_accepted :
    (∀ name path d,
      Backup.mk? name path ⟨2022, 1, 1, 0, 0, 0, 500000, some 0⟩ d
        = .ok ⟨name, path, ⟨2022, 1, 1, 0, 0, 0, 500000, some 0⟩, d⟩) ∧
    (∀ name path d,
      Backup.mk? name path ⟨2022, 1, 1, 0, 0, 0, 0, none⟩ d
        = .error "Requires Timezone Information") ∧
    (∀ name path d,
      Backup.mk? name path ⟨2022, 1, 1, 12, 30, 5, 0, some 3600⟩ d
        = .ok ⟨name, path, ⟨2022, 1, 1, 12, 30, 5, 0, some 3600⟩, d⟩) := by
  refine ⟨fun _ _ _ => rfl, fun _ _ _ => rfl, fun _ _ _ => rfl⟩

/-- C5 counterexample: two records with the same timestamp but
different paths are related by none of `<`, `=`, `>`, so record
comparison is not a total order. -/
theorem backup_trichotomy_fails :
    Backup.ltb ⟨['a'], ['a'], ⟨2022, 7, 22, 10, 0, 0, 0, some 0⟩, false⟩
        ⟨['b'], ['b'], ⟨2022, 7, 22, 10, 0, 0, 0, some 0⟩, true⟩ = false ∧
    Backup.gtb ⟨['a'], ['a'], ⟨2022, 7, 22, 10, 0, 0, 0, some 0⟩, false⟩
        ⟨['b'], ['b'], ⟨2022, 7, 22, 10, 0, 0, 0, some 0⟩, true⟩ = false ∧
    Backup.eqb ⟨['a'], ['a'], ⟨2022, 7, 22, 10, 0, 0, 0, some 0⟩, false⟩
        ⟨['b'], ['b'], ⟨2022, 7, 22, 10, 0, 0, 0, some 0⟩, true⟩ = false := by
  decide

/-- C5 (amended): for timezone-aware records (as the constructor
guarantees), `<` and `>` order records exactly by timestamp instant and
`<` is transitive, any two records are `<`-, `>`-related or have equal
timestamps, and two records are `==`-equal exactly when their timestamp
instants and paths agree (name and directory flag are ignored). -/
theorem backup_order_by_timestamp (b1 b2 b3 : Backup)
    (h1 : b1.time.tzoff.isSome) (h2 : b2.time.tzoff.isSome)
    (h3 : b3.time.tzoff.isSome) :
    (b1.ltb b2 = true ∨ b1.gtb b2 = true ∨ b1.time.eqb b2.time = true) ∧
    (b1.ltb b2 = true ↔ b1.time.epochMicro < b2.time.epochMicro) ∧
    (b1.gtb b2 = true ↔ b2.time.epochMicro < b1.time.epochMicro) ∧
    (b1.eqb b2 = true ↔
      b1.time.epochMicro = b2.time.epochMicro ∧ b1.path = b2.path) ∧
    (b1.ltb b2 = true → b2.ltb b3 = true → b1.ltb b3 = true) := by
  rcases Option.isSome_iff_exists.mp h1 with ⟨o1, ho1⟩
  rcases Option.isSome_iff_exists.mp h2 with ⟨o2, ho2⟩
  rcases Option.isSome_iff_exists.mp h3 with ⟨o3, ho3⟩
  simp only [Backup.ltb, Backup.gtb, Backup.eqb, PyDateTime.ltb,
    PyDateTime.eqb, ho1, ho2, ho3, Bool.and_eq_true, beq_iff_eq,
    decide_eq_true_eq]
  refine ⟨?_, trivial, trivial, trivial, ?_⟩ <;> omega

/-- C6: `_get_working_path` returns the first candidate working root
whose free space strictly exceeds the recursive total size of the
source's files, and raises a resource-exhaustion error when none
qualifies; in particular with free spaces `[10, 50, 100]` and total
size 60 it picks the root with 100 free, and with size 200 it
raises. -/
theorem workspace_first_fit :
    (∀ (workingPaths : List (PyStr × Nat)) (files : List Nat),
      getWorkingPath workingPaths (inputSize files)
        = match workingPaths.find? (fun c => inputSize files < c.2) with
          | some c => .ok c.1
          | none => .error "Could not find a workspace with enough free space") ∧
    getWorkingPath [(['a'], 10), (['b'], 50), (['c'], 100)] 60 = .ok ['c'] ∧
    getWorkingPath [(['a'], 10), (['b'], 50), (['c'], 100)] 200
      = .error "Could not find a workspace with enough free space" := by
  refine ⟨fun workingPaths files => ?_, by rfl, by rfl⟩
  induction workingPaths with
  | nil => rfl
  | cons hd tl ih =>
      obtain ⟨p, free⟩ := hd
      by_cases h : inputSize files < free
      · simp [getWorkingPath, List.find?_cons, h]
      · simp [getWorkingPath, List.find?_cons, h, ih]

/-- C10: records that compare `==`-equal (same instant, same path) have
equal hash keys, because `__hash__` normalizes the timestamp to UTC
before combining it with the path; consequently `==`-membership tests
cannot distinguish the two records. -/
theorem hashKey_eq_of_eqb (b1 b2 : Backup) (h1 : b1.time.tzoff.isSome)
    (hu1 : b1.time.microsecond < 1000000)
    (hu2 : b2.time.microsecond < 1000000)
    (heq : b1.eqb b2 = true) :
    b1.hashKey = b2.hashKey ∧ ∀ x : Backup, b1.eqb x = b2.eqb x := by
  rcases Option.isSome_iff_exists.mp h1 with ⟨o1, ho1⟩
  rcases hb2 : b2.time.tzoff with _ | o2
  · simp only [Backup.eqb, PyDateTime.eqb, ho1, hb2, Bool.false_and] at heq
    exact absurd heq (by simp)
  simp only [Backup.eqb, PyDateTime.eqb, ho1, hb2, Bool.and_eq_true,
    beq_iff_eq] at heq
  obtain ⟨hinst, hpath⟩ := heq
  have hsec : b1.time.wallEpochSec - o1 = b2.time.wallEpochSec - o2 ∧
      b1.time.microsecond = b2.time.microsecond := by
    simp only [PyDateTime.epochMicro, ho1, hb2, Option.getD_some] at hinst
    constructor <;> omega
  constructor
  · unfold Backup.hashKey PyDateTime.astimezoneUTC
    rw [hpath, ho1, hb2]
    simp only [Option.getD_some, hsec.1, hsec.2]
  · intro x
    rcases hx : x.time.tzoff with _ | ox
    · simp only [Backup.eqb, PyDateTime.eqb, ho1, hb2, hx, Bool.false_and]
    · simp only [Backup.eqb, PyDateTime.eqb, ho1, hb2, hx, hpath, hinst]

/-- Witness for C10 at two concrete records denoting the same instant
with different timezone offsets. -/
theorem hashKey_eq_of_eqb_witness :
    (⟨['n'], ['p'], ⟨2022, 7, 22, 12, 0, 0, 0, some 0⟩, false⟩ : Backup).hashKey
      = (⟨['m'], ['p'], ⟨2022, 7, 22, 13, 0, 0, 0, some 3600⟩, true⟩ : Backup).hashKey :=
  (hashKey_eq_of_eqb
    ⟨['n'], ['p'], ⟨2022, 7, 22, 12, 0, 0, 0, some 0⟩, false⟩
    ⟨['m'], ['p'], ⟨2022, 7, 22, 13, 0, 0, 0, some 3600⟩, true⟩
    (by decide) (by decide) (by decide) (by decide)).1

/-- C7: snapshot-name sanitization keeps only ASCII letters, digits and
underscore, and the collision-resolution loop — provided the random
suffixes drawn while it runs do not repeat — terminates within
`|existing| + 1` tries and returns a path that did not exist before the
snapshot is created. -/
theorem sanitize_chars_and_collision_resolution (s dir snapname : PyStr)
    (existing : Finset PyStr) (rand : Nat → PyStr)
    (hinj : ∀ i j, i < existing.card → j < existing.card →
      rand i = rand j → i = j) :
    (∀ c ∈ sanitize s, isAllowedChar c = true) ∧
    ∃ p, findFreePath (fun q => decide (q ∈ existing)) dir snapname rand
        (existing.card + 1) 0 = some p ∧ p ∉ existing := by
  constructor
  · intro c hc
    exact (List.mem_filter.mp hc).2
  · have hfree : ∃ k, k < existing.card + 1 ∧
        candidatePath dir snapname rand k ∉ existing := by
      by_contra h
      push_neg at h
      have hsub : (Finset.range (existing.card + 1)).image
          (candidatePath dir snapname rand) ⊆ existing := by
        intro p hp
        simp only [Finset.mem_image, Finset.mem_range] at hp
        obtain ⟨k, hk, rfl⟩ := hp
        exact h k hk
      have hcard : ((Finset.range (existing.card + 1)).image
          (candidatePath dir snapname rand)).card = existing.card + 1 := by
        rw [Finset.card_image_of_injOn, Finset.card_range]
        intro i hi j hj hij
        simp only [Finset.coe_range, Set.mem_Iio] at hi hj
        match i, j with
        | 0, 0 => rfl
        | 0, j + 1 =>
            have hlen := congrArg List.length hij
            simp only [candidatePath, List.length_append,
              List.length_cons] at hlen
            omega
        | i + 1, 0 =>
            have hlen := congrArg List.length hij
            simp only [candidatePath, List.length_append,
              List.length_cons] at hlen
            omega
        | i + 1, j + 1 =>
            simp only [candidatePath] at hij
            have h1 := List.append_cancel_left hij
            have h2 : snapname ++ '_' :: rand i = snapname ++ '_' :: rand j :=
              List.cons_injective.eq_iff.mp h1
            have h3 := List.append_cancel_left h2
            have h4 : rand i = rand j := List.cons_injective.eq_iff.mp h3
            exact congrArg Nat.succ (hinj i j (by omega) (by omega) h4)
      have := Finset.card_le_card hsub
      omega
    obtain ⟨k, hk, hnot⟩ := hfree
    obtain ⟨p, hp, hf⟩ := findFreePath_of_free
      (fun q => decide (q ∈ existing)) dir snapname rand
      (existing.card + 1) 0
      ⟨k, hk, by simpa using hnot⟩
    exact ⟨p, hp, by simpa using hf⟩

/-- Witness for C7 at a concrete sanitization input and a concrete,
nonempty set of pre-existing paths. -/
theorem sanitize_chars_and_collision_resolution_witness :
    (∀ c ∈ sanitize ['a', '.', 'b', '!'], isAllowedChar c = true) ∧
    ∃ p, findFreePath
        (fun q => decide (q ∈ ({['d', '/', 's']} : Finset PyStr)))
        ['d'] ['s'] (fun i => [Nat.digitChar i]) 2 0 = some p ∧
        p ∉ ({['d', '/', 's']} : Finset PyStr) :=
  sanitize_chars_and_collision_resolution ['a', '.', 'b', '!'] ['d'] ['s']
    {['d', '/', 's']} (fun i => [Nat.digitChar i])
    (by
      intro i j hi hj _
      simp only [Finset.card_singleton] at hi hj
      omega)

/-- C4: the names `backup()` writes round-trip through the listing
reconstruction of `get_backups`.  For any valid whole-second aware
timestamp: the directory-mode name `{name}_{timestamp}` (listed by the
remote with MIME type `inode/directory`) and the archive-mode name
`{name}_{timestamp}{ext}` (any other MIME type, extension starting
with `.`) are re-parsed to a record with exactly the original
timestamp and directory/file classification, so the reconstructed
record equals the one created at upload time. -/
theorem backup_name_roundtrip (cfgName : PyStr) (t : PyDateTime) (off : Int)
    (ext mime extRest : PyStr)
    (hoff : t.tzoff = some off) (habs : off.natAbs < 86400)
    (hy1 : 1 ≤ t.year) (hy2 : t.year ≤ 9999)
    (hmo1 : 1 ≤ t.month) (hmo2 : t.month ≤ 12)
    (hd1 : 1 ≤ t.day) (hd2 : t.day ≤ daysInMonth t.year t.month)
    (hhr : t.hour ≤ 23) (hmi : t.minute ≤ 59) (hsec : t.second ≤ 59)
    (hus : t.microsecond = 0)
    (hext : ext = '.' :: extRest)
    (hmime : mime ≠ "inode/directory".data) :
    parseEntry cfgName
      ⟨(backupDirRecord cfgName t false).name,
       (backupDirRecord cfgName t false).path, "inode/directory".data⟩
      = some (backupDirRecord cfgName t false) ∧
    parseEntry cfgName
      ⟨(backupArchiveRecord cfgName t ext).name,
       (backupArchiveRecord cfgName t ext).path, mime⟩
      = some (backupArchiveRecord cfgName t ext) := by
  have hrt := strptime_strftime t off hoff habs hy1 hy2 hmo1 hmo2 hd1 hd2
    hhr hmi hsec hus
  subst hext
  have hdrop := drop_len_succ cfgName '_' (strftimeCompact t)
  have hdrop2 := drop_len_succ cfgName '_' (strftimeCompact t ++ '.' :: extRest)
  have htke : (strftimeCompact t ++ '.' :: extRest).takeWhile (· ≠ '.')
      = strftimeCompact t := by
    refine takeWhile_append_stop _ _ _ (fun x hx => ?_) (by decide)
    simpa using strftimeCompact_no_dot t off hoff x hx
  constructor
  · simp only [parseEntry, backupDirRecord, extractTimeStr,
      prefix_underscore, if_true, beq_self_eq_true, hdrop, hrt,
      Bool.not_false]
  · have hm : (mime == "inode/directory".data) = false :=
      beq_eq_false_iff_ne.mpr hmime
    simp only [parseEntry, backupArchiveRecord, extractTimeStr,
      prefix_underscore, if_true, hm, Bool.false_eq_true, if_false,
      hdrop2, htke, hrt]

/-- Witness for C4 at a concrete timestamp, extension `.tar.zst` and
MIME type `application/zstd`. -/
theorem backup_name_roundtrip_witness :
    parseEntry "tgt".data
      ⟨(backupDirRecord "tgt".data ⟨2022, 7, 22, 9, 5, 3, 0, some 32400⟩ false).name,
       (backupDirRecord "tgt".data ⟨2022, 7, 22, 9, 5, 3, 0, some 32400⟩ false).path,
       "inode/directory".data⟩
      = some (backupDirRecord "tgt".data ⟨2022, 7, 22, 9, 5, 3, 0, some 32400⟩ false) ∧
    parseEntry "tgt".data
      ⟨(backupArchiveRecord "tgt".data ⟨2022, 7, 22, 9, 5, 3, 0, some 32400⟩ ".tar.zst".data).name,
       (backupArchiveRecord "tgt".data ⟨2022, 7, 22, 9, 5, 3, 0, some 32400⟩ ".tar.zst".data).path,
       "application/zstd".data⟩
      = some (backupArchiveRecord "tgt".data ⟨2022, 7, 22, 9, 5, 3, 0, some 32400⟩ ".tar.zst".data) :=
  backup_name_roundtrip "tgt".data ⟨2022, 7, 22, 9, 5, 3, 0, some 32400⟩
    32400 ".tar.zst".data "application/zstd".data "tar.zst".data
    rfl (by decide) (by decide) (by decide) (by decide) (by decide)
    (by decide) (by decide) (by decide) (by decide) (by decide) rfl
    (by decide) (by decide)

/-- C8: on a (forced) refresh, `get_backups` degrades a listing failure
to an empty history without touching the cache, and on a successful
listing returns exactly the parseable entries — a permutation of the
per-entry parses — sorted ascending by timestamp instant; an entry
parses exactly when its name starts with `"{name}_"` and its extracted
trailing timestamp parses under the compact ISO-8601 format. -/
theorem get_backups_characterization (cfgName : PyStr)
    (cache : Option (List Backup)) (entries : List RawEntry) :
    getBackups cfgName cache true none = ([], cache) ∧
    ((getBackups cfgName cache true (some entries)).1).Perm
      (entries.filterMap (parseEntry cfgName)) ∧
    List.Pairwise (fun a b => a.time.epochMicro ≤ b.time.epochMicro)
      (getBackups cfgName cache true (some entries)).1 ∧
    (∀ e : RawEntry, (parseEntry cfgName e).isSome ↔
      ((cfgName ++ ['_']).isPrefixOf e.Name = true ∧
        (strptimeCompact (extractTimeStr cfgName e)).isSome)) := by
  have hall : ∀ b ∈ entries.filterMap (parseEntry cfgName),
      b.time.tzoff.isSome := by
    intro b hb
    rw [List.mem_filterMap] at hb
    obtain ⟨e, -, he⟩ := hb
    exact parseEntry_aware he
  have hcongr : (entries.filterMap (parseEntry cfgName)).mergeSort Backup.leb
      = (entries.filterMap (parseEntry cfgName)).mergeSort
          (fun a b => decide (a.time.epochMicro ≤ b.time.epochMicro)) := by
    have hmap := List.map_mergeSort (f := fun x : Backup => x)
      (r := Backup.leb)
      (s := fun a b => decide (a.time.epochMicro ≤ b.time.epochMicro))
      (l := entries.filterMap (parseEntry cfgName))
      (fun a ha b hb => leb_aware (hall a ha) (hall b hb))
    simpa using hmap
  refine ⟨by simp [getBackups], ?_, ?_, ?_⟩
  · simp only [getBackups, Bool.not_true, Bool.and_false, Bool.false_eq_true,
      if_false]
    exact List.mergeSort_perm _ _
  · simp only [getBackups, Bool.not_true, Bool.and_false, Bool.false_eq_true,
      if_false]
    rw [hcongr]
    have hsorted := @List.sorted_mergeSort Backup
      (fun a b : Backup => decide (a.time.epochMicro ≤ b.time.epochMicro))
      (fun a b c hab hbc => by
        simp only [decide_eq_true_eq] at hab hbc ⊢
        omega)
      (fun a b => by
        rcases Int.le_total a.time.epochMicro b.time.epochMicro with h | h <;>
          simp [h])
      (entries.filterMap (parseEntry cfgName))
    exact hsorted.imp (fun h => by simpa using h)
  · intro e
    unfold parseEntry
    split
    · rcases hm : strptimeCompact (extractTimeStr cfgName e) with _ | t <;>
        simp_all
    · simp_all

/-- C2 counterexample: with an in-flight record that the fresh remote
listing does not contain, `undo()` leaves `self.new_backup` set — it
does *not* clear the in-flight reference, contradicting the claim that
it is cleared whether or not the remote had the record. -/
theorem undo_keeps_inflight_when_absent :
    (undo ['t'] ⟨none, some ⟨['n'], ['p'], ⟨2022, 1, 1, 0, 0, 0, 0, some 0⟩, false⟩⟩
        (some [])).1.new_backup
      = some ⟨['n'], ['p'], ⟨2022, 1, 1, 0, 0, 0, 0, some 0⟩, false⟩ ∧
    (undo ['t'] ⟨none, some ⟨['n'], ['p'], ⟨2022, 1, 1, 0, 0, 0, 0, some 0⟩, false⟩⟩
        (some [])).1.new_backup ≠ none := by
  constructor
  · simp [undo, getBackups]
  · simp [undo, getBackups]

/-- C2 (amended): `undo()` is a no-op when nothing is in flight;
otherwise it re-lists the remote bypassing the cache and, when the
in-flight record is present in the fresh listing, deletes exactly that
record's path from the remote (every entry at a different path
survives) and clears the in-flight reference; when the record is
absent, the remote is untouched and the in-flight reference stays
set. -/
theorem undo_characterization (cfgName : PyStr) (st : SyncState)
    (listing : Option (List RawEntry)) (nb : Backup) :
    (st.new_backup = none → undo cfgName st listing = (st, listing)) ∧
    (st.new_backup = some nb →
      ((getBackups cfgName st.backups true listing).1.any (Backup.eqb nb)
          = true →
        (undo cfgName st listing).1.new_backup = none ∧
        (undo cfgName st listing).2 = listing.map (removeRemote nb)) ∧
      ((getBackups cfgName st.backups true listing).1.any (Backup.eqb nb)
          = false →
        (undo cfgName st listing).1.new_backup = some nb ∧
        (undo cfgName st listing).2 = listing)) ∧
    (∀ entries : List RawEntry, ∀ e ∈ entries,
      (e.Path ≠ nb.path → e ∈ removeRemote nb entries) ∧
      (e.Path = nb.path → e ∉ removeRemote nb entries)) := by
  refine ⟨fun h => ?_, fun h => ?_, fun entries e he => ?_⟩
  · simp [undo, h]
  · constructor <;> intro hmem <;>
      simp [undo, h, hmem]
  · constructor <;> intro hp <;>
      simp [removeRemote, List.mem_filter, he, hp]

/-- Witness for C2 (amended): the no-op case at a concrete state. -/
theorem undo_characterization_witness :
    undo ['t'] ⟨none, none⟩ (some []) = (⟨none, none⟩, some []) :=
  (undo_characterization ['t'] ⟨none, none⟩ (some [])
    ⟨['n'], ['p'], ⟨2022, 1, 1, 0, 0, 0, 0, some 0⟩, false⟩).1 rfl

/-- C9: after a successful `create_archive`, a second call without an
intervening `clean_archive` hits the cache guard: it returns the
identical archive path, changes neither the handler state nor the
filesystem, and performs no work at all (no workspace selection, no
scratch directory, no external tool run — the effect list is empty),
for any inputs the second call might see. -/
theorem archive_create_idempotent (workingPaths : List (PyStr × Nat))
    (size : Nat) (tmpName name ext : PyStr) (fs0 : List PyStr)
    (st1 : ArchiveState) (fs1 : List PyStr) (p : PyStr)
    (effs : List ArchiveEffect)
    (h : createArchive workingPaths size tmpName name ext ⟨none, none⟩ fs0
      = .ok (st1, fs1, p, effs)) :
    ∀ (workingPaths2 : List (PyStr × Nat)) (size2 : Nat) (tmpName2 : PyStr),
      createArchive workingPaths2 size2 tmpName2 name ext st1 fs1
        = .ok (st1, fs1, p, []) := by
  intro workingPaths2 size2 tmpName2
  unfold createArchive at h
  rw [if_neg (by simp)] at h
  rcases hw : getWorkingPath workingPaths size with e | w <;>
    simp only [hw] at h
  · cases h
  · by_cases hmem : (tmpName ++ '/' :: (name ++ ext)) ∈ fs0
    · rw [if_pos hmem] at h
      cases h
    · rw [if_neg hmem] at h
      simp only [Except.ok.injEq, Prod.mk.injEq] at h
      obtain ⟨hst, hfs, hp, -⟩ := h
      subst hst
      subst hfs
      subst hp
      simp [createArchive]

/-- Witness for C9: a concrete successful first call (one workspace
with 100 bytes free, input size 10), then the second call. -/
theorem archive_create_idempotent_witness :
    createArchive [(['w'], 100)] 10 ['m', '2'] ['n'] ['.', 't']
        ⟨some ['m', '/', 'n', '.', 't'], some ['m']⟩
        [['m', '/', 'n', '.', 't'], ['m']]
      = .ok (⟨some ['m', '/', 'n', '.', 't'], some ['m']⟩,
          [['m', '/', 'n', '.', 't'], ['m']], ['m', '/', 'n', '.', 't'], []) :=
  archive_create_idempotent [(['w'], 100)] 10 ['m'] ['n'] ['.', 't'] []
    ⟨some ['m', '/', 'n', '.', 't'], some ['m']⟩
    [['m', '/', 'n', '.', 't'], ['m']] ['m', '/', 'n', '.', 't']
    [.selectWorkspace ['w'], .mkdtemp ['m'],
      .runTar ['m', '/', 'n', '.', 't']]
    rfl [(['w'], 100)] 10 ['m', '2']

/-- C1: on an ascending (timezone-aware) history, `clean()` deletes
exactly the records outside the union of (a) the grace window (records
younger than `min_age`, excluded from bucketing) and (b) for each of
the five tiers, the per-bucket representatives of the `limit_<tier>`
most recent bucket keys (`specKeeps`; a limit of 0 keeps none from
that tier); and the representative produced by the bucket map is the
*earliest* record of its bucket — later records in the same period
never replace it.  Deletion is stated up to `__eq__`, the identity
`set(backups) - keep_alive` uses. -/
theorem clean_retention (tl : Timeline) (cur : Int) (backups : List Backup)
    (haware : ∀ b ∈ backups, b.time.tzoff.isSome)
    (hasc : backups.Pairwise
      (fun a b => a.time.epochMicro ≤ b.time.epochMicro)) :
    (∀ b ∈ backups,
      b ∈ deadBackups tl cur backups ↔
        ¬ ∃ b' ∈ backups, Backup.eqb b b' = true ∧
          specKeeps tl cur backups b') ∧
    (∀ (key : Backup → Int) (b : Backup),
      (backups.filter (fun x => !(grace tl.min_age cur x))).find?
          (fun x => key x == key b) = some b →
      ∀ x ∈ backups.filter (fun x => !(grace tl.min_age cur x)),
        key x = key b → b.time.epochMicro ≤ x.time.epochMicro) := by
  have hawb' : ∀ y ∈ backups.filter (fun x => !(grace tl.min_age cur x)),
      y.time.tzoff.isSome :=
    fun y hy => haware y (List.mem_of_mem_filter hy)
  have hasc' : (backups.filter (fun x => !(grace tl.min_age cur x))).Pairwise
      (fun a b => a.time.epochMicro ≤ b.time.epochMicro) :=
    hasc.filter _
  constructor
  · intro b hb
    have hne : ¬(backups.isEmpty = true) := by
      cases backups
      · cases hb
      · simp
    have hkeep : (∃ k ∈ keepAlive tl cur backups, Backup.eqb b k = true) ↔
        ∃ b' ∈ backups, Backup.eqb b b' = true ∧
          specKeeps tl cur backups b' := by
      constructor
      · rintro ⟨k, hk, hbk⟩
        simp only [keepAlive, List.mem_append] at hk
        rcases hk with ((((hk | hk) | hk) | hk) | hk) | hk
        · exact ⟨k, List.mem_of_mem_filter hk, hbk, by
            simp only [specKeeps]
            exact Or.inl (List.of_mem_filter hk)⟩
        · have hs := (tierKeep_mem_iff hourKey tl.limit_hourly _
            hawb' hasc' k).mp hk
          exact ⟨k, List.mem_of_mem_filter
            (List.mem_of_find?_eq_some hs.1), hbk, by
            simp only [specKeeps]
            exact Or.inr (Or.inl hs)⟩
        · have hs := (tierKeep_mem_iff dayKey tl.limit_daily _
            hawb' hasc' k).mp hk
          exact ⟨k, List.mem_of_mem_filter
            (List.mem_of_find?_eq_some hs.1), hbk, by
            simp only [specKeeps]
            exact Or.inr (Or.inr (Or.inl hs))⟩
        · have hs := (tierKeep_mem_iff weekKey tl.limit_weekly _
            hawb' hasc' k).mp hk
          exact ⟨k, List.mem_of_mem_filter
            (List.mem_of_find?_eq_some hs.1), hbk, by
            simp only [specKeeps]
            exact Or.inr (Or.inr (Or.inr (Or.inl hs)))⟩
        · have hs := (tierKeep_mem_iff monthKey tl.limit_monthly _
            hawb' hasc' k).mp hk
          exact ⟨k, List.mem_of_mem_filter
            (List.mem_of_find?_eq_some hs.1), hbk, by
            simp only [specKeeps]
            exact Or.inr (Or.inr (Or.inr (Or.inr (Or.inl hs))))⟩
        · have hs := (tierKeep_mem_iff yearKey tl.limit_yearly _
            hawb' hasc' k).mp hk
          exact ⟨k, List.mem_of_mem_filter
            (List.mem_of_find?_eq_some hs.1), hbk, by
            simp only [specKeeps]
            exact Or.inr (Or.inr (Or.inr (Or.inr (Or.inr hs))))⟩
      · rintro ⟨b', hb', hbb', hspec⟩
        simp only [specKeeps] at hspec
        refine ⟨b', ?_, hbb'⟩
        simp only [keepAlive, List.mem_append]
        rcases hspec with h | h | h | h | h | h
        · exact Or.inl (Or.inl (Or.inl (Or.inl
            (Or.inl (List.mem_filter.mpr ⟨hb', h⟩)))))
        · exact Or.inl (Or.inl (Or.inl (Or.inl (Or.inr
            ((tierKeep_mem_iff hourKey tl.limit_hourly _
              hawb' hasc' b').mpr h)))))
        · exact Or.inl (Or.inl (Or.inl (Or.inr
            ((tierKeep_mem_iff dayKey tl.limit_daily _
              hawb' hasc' b').mpr h))))
        · exact Or.inl (Or.inl (Or.inr
            ((tierKeep_mem_iff weekKey tl.limit_weekly _
              hawb' hasc' b').mpr h)))
        · exact Or.inl (Or.inr
            ((tierKeep_mem_iff monthKey tl.limit_monthly _
              hawb' hasc' b').mpr h))
        · exact Or.inr ((tierKeep_mem_iff yearKey tl.limit_yearly _
            hawb' hasc' b').mpr h)
    simp only [deadBackups, if_neg hne, List.mem_filter, hb, true_and,
      Bool.not_eq_true']
    rw [← hkeep]
    constructor
    · intro hfalse hex
      obtain ⟨k, hk, hbk⟩ := hex
      have := List.any_eq_true.mpr ⟨k, hk, hbk⟩
      rw [hfalse] at this
      cases this
    · intro hnex
      rcases hany : (keepAlive tl cur backups).any
          (fun k => Backup.eqb b k) with _ | _
      · rfl
      · obtain ⟨k, hk, hbk⟩ := List.any_eq_true.mp hany
        exact absurd ⟨k, hk, hbk⟩ hnex
  · intro key b hfind x hx hkey
    obtain ⟨hpb, as, bs', hdecomp, hprev⟩ := List.find?_eq_some.mp hfind
    have hpairL := hasc'
    rw [hdecomp] at hpairL hx
    rcases List.mem_append.mp hx with hxas | hxcons
    · have hne := hprev x hxas
      simp only [Bool.not_eq_true', beq_eq_false_iff_ne] at hne
      exact absurd hkey hne
    · rcases List.mem_cons.mp hxcons with rfl | hxbs
      · exact le_refl _
      · exact (List.pairwise_cons.mp
          (List.pairwise_append.mp hpairL).2.1).1 x hxbs

/-- Witness for C1 at a concrete two-record history (both past the
grace window, hourly limit 1, all other limits 0): the characterization
of the deletion of the older record. -/
theorem clean_retention_witness :
    (⟨['a'], ['a'], ⟨2022, 1, 1, 1, 0, 0, 0, some 0⟩, true⟩ : Backup) ∈
        deadBackups ⟨0, 1, 0, 0, 0, 0⟩ 1700000000000000
          [⟨['a'], ['a'], ⟨2022, 1, 1, 1, 0, 0, 0, some 0⟩, true⟩,
           ⟨['b'], ['b'], ⟨2022, 1, 1, 2, 0, 0, 0, some 0⟩, true⟩] ↔
      ¬ ∃ b' ∈ [(⟨['a'], ['a'], ⟨2022, 1, 1, 1, 0, 0, 0, some 0⟩, true⟩ : Backup),
           ⟨['b'], ['b'], ⟨2022, 1, 1, 2, 0, 0, 0, some 0⟩, true⟩],
        Backup.eqb ⟨['a'], ['a'], ⟨2022, 1, 1, 1, 0, 0, 0, some 0⟩, true⟩ b'
            = true ∧
          specKeeps ⟨0, 1, 0, 0, 0, 0⟩ 1700000000000000
            [⟨['a'], ['a'], ⟨2022, 1, 1, 1, 0, 0, 0, some 0⟩, true⟩,
             ⟨['b'], ['b'], ⟨2022, 1, 1, 2, 0, 0, 0, some 0⟩, true⟩] b' :=
  (clean_retention ⟨0, 1, 0, 0, 0, 0⟩ 1700000000000000
    [⟨['a'], ['a'], ⟨2022, 1, 1, 1, 0, 0, 0, some 0⟩, true⟩,
     ⟨['b'], ['b'], ⟨2022, 1, 1, 2, 0, 0, 0, some 0⟩, true⟩]
    (by decide) (by decide)).1
    ⟨['a'], ['a'], ⟨2022, 1, 1, 1, 0, 0, 0, some 0⟩, true⟩
    (by decide)

/-- Witness for C5 (amended) at three concrete aware records. -/
theorem backup_order_by_timestamp_witness :
    (Backup.ltb ⟨['a'], ['a'], ⟨2022, 1, 1, 0, 0, 0, 0, some 0⟩, false⟩
        ⟨['b'], ['b'], ⟨2022, 1, 2, 0, 0, 0, 0, some 0⟩, false⟩ = true ∨
      Backup.gtb ⟨['a'], ['a'], ⟨2022, 1, 1, 0, 0, 0, 0, some 0⟩, false⟩
        ⟨['b'], ['b'], ⟨2022, 1, 2, 0, 0, 0, 0, some 0⟩, false⟩ = true ∨
      PyDateTime.eqb ⟨2022, 1, 1, 0, 0, 0, 0, some 0⟩
        ⟨2022, 1, 2, 0, 0, 0, 0, some 0⟩ = true) :=
  (backup_order_by_timestamp
    ⟨['a'], ['a'], ⟨2022, 1, 1, 0, 0, 0, 0, some 0⟩, false⟩
    ⟨['b'], ['b'], ⟨2022, 1, 2, 0, 0, 0, 0, some 0⟩, false⟩
    ⟨['c'], ['c'], ⟨2022, 1, 3, 0, 0, 0, 0, some 0⟩, false⟩
    (by decide) (by decide) (by decide)).1

end Crossbackup
